import Mathlib

/-!
Verification of the sentence-ranking and question-synthesis engine of the
Mini_Project quiz generator (`Quiz_current/`).

Strings are modelled as `List Char` (`Str`).  Python string primitives used by
the code (`str.lower`, `str.isalpha`, `str.split`, `str.strip`, regex
whole-word search on `\b...\b`, whitespace collapapsing) are embedded over the
ASCII fragment, which is the fragment the pipeline's cleaned text lives in
(`preprocess_text` strips the text down to `[a-zA-Z0-9.,!?;:'"()\-\s]`).

External collaborators (the NLTK tokenizer/POS tagger and Python's `random`
module) are modelled as explicit parameters: a tagger is a function from a
sentence to its tagged token list, and each random draw is an oracle function
indexed by the position of the sentence being processed, constrained by
hypotheses expressing exactly what the corresponding `random` primitive
guarantees (`random.choice l ∈ l`, `random.sample l 3` is a length-3
subpermutation of `l`, `random.shuffle` permutes, …).
-/

/-- Strings as lists of characters. -/
abbrev Str := List Char

/-- Coerce a Lean string literal to the `Str` model. -/
def str (s : String) : Str := s.toList

/-- ASCII uppercase letter test (`A`–`Z`). -/
def asciiUpperQ (c : Char) : Bool := decide (65 ≤ c.toNat ∧ c.toNat ≤ 90)

/-- ASCII lowercase letter test (`a`–`z`). -/
def asciiLowerQ (c : Char) : Bool := decide (97 ≤ c.toNat ∧ c.toNat ≤ 122)

/-- Model of Python `str.isalpha` at character level (ASCII fragment). -/
def alphaChar (c : Char) : Bool := asciiUpperQ c || asciiLowerQ c

/-- ASCII digit test (`0`–`9`). -/
def digitChar (c : Char) : Bool := decide (48 ≤ c.toNat ∧ c.toNat ≤ 57)

/-- Model of Python's regex `\s` / `str.split()` whitespace class:
space, tab, newline, carriage return, vertical tab, form feed. -/
def wsChar (c : Char) : Bool :=
  decide (c.toNat = 32) || decide (c.toNat = 9) || decide (c.toNat = 10) ||
  decide (c.toNat = 13) || decide (c.toNat = 11) || decide (c.toNat = 12)

/-- Model of Python's regex `\w` word-character class (ASCII fragment):
letters, digits and underscore.  Used for the `\b` word boundary. -/
def wordChar (c : Char) : Bool := alphaChar c || digitChar c || decide (c.toNat = 95)

/-- Model of Python `str.lower` at character level (ASCII fragment). -/
def lowerChar (c : Char) : Char :=
  if asciiUpperQ c then Char.ofNat (c.toNat + 32) else c

/-- Model of Python `str.upper` at character level (ASCII fragment). -/
def upperChar (c : Char) : Char :=
  if asciiLowerQ c then Char.ofNat (c.toNat - 32) else c

/-- Model of Python `str.lower` on strings. -/
def lowerStr (s : Str) : Str := s.map lowerChar

/-- Python `str.strip()`: drop leading whitespace. -/
def trimLeft (s : Str) : Str := s.dropWhile wsChar

/-- Python `str.strip()`: drop trailing whitespace. -/
def trimRight (s : Str) : Str := (s.reverse.dropWhile wsChar).reverse

/-- Model of Python `str.strip()`. -/
def trim (s : Str) : Str := trimRight (trimLeft s)

/-- Replace each maximal whitespace run by a single space
(`WHITESPACE_PATTERN.sub(' ', s)` in `question_generation.py`).
The flag records whether the previous character was whitespace. -/
def collapseWsAux : Bool → Str → Str
  | _, [] => []
  | prevWs, c :: rest =>
    if wsChar c then
      if prevWs then collapseWsAux true rest
      else ' ' :: collapseWsAux true rest
    else c :: collapseWsAux false rest

/-- `normalize_sentence` (question_generation.py lines 30–33):
`WHITESPACE_PATTERN.sub(' ', s).strip()`. -/
def normalize_sentence (s : Str) : Str := trim (collapseWsAux false s)

/-- Uppercase the first alphabetic character, leaving everything before it
unchanged (the loop of `capitalize_first`, lines 43–45). -/
def capFirstAux : Str → Str
  | [] => []
  | c :: rest => if alphaChar c then upperChar c :: rest else c :: capFirstAux rest

/-- `capitalize_first` (question_generation.py lines 36–46):
strip, then uppercase the first alphabetic character. -/
def capitalize_first (s : Str) : Str := capFirstAux (trim s)

/-- Lowercase the first alphabetic character; `none` if no alphabetic
character exists (the loop of `generate_fill`, lines 148–151, which leaves
`q` unchanged when it never fires). -/
def lowFirstAlpha : Str → Option Str
  | [] => none
  | c :: rest =>
    if alphaChar c then some (lowerChar c :: rest)
    else (lowFirstAlpha rest).map (c :: ·)

/-- Word counting as by Python `len(s.split())`: number of maximal
non-whitespace runs.  The flag records whether we are inside a run. -/
def wcAux : Bool → Str → Nat
  | _, [] => 0
  | inw, c :: rest =>
    if wsChar c then wcAux false rest
    else if inw then wcAux true rest else wcAux true rest + 1

/-- `len(s.split())` in the source. -/
def wordCount (s : Str) : Nat := wcAux false s

/-- Helper for `splitWords`: `acc` is the current (reversed) in-progress word. -/
def splitWordsAux : Str → Str → List Str
  | [], acc => if acc.isEmpty then [] else [acc.reverse]
  | c :: rest, acc =>
    if wsChar c then
      if acc.isEmpty then splitWordsAux rest [] else acc.reverse :: splitWordsAux rest []
    else splitWordsAux rest (c :: acc)

/-- Python `s.split()`: the list of maximal non-whitespace runs. -/
def splitWords (s : Str) : List Str := splitWordsAux s []

/-- Model of Python `str.isalpha` on strings: non-empty and all-alphabetic. -/
def isAlphaStr (w : Str) : Bool := !w.isEmpty && w.all alphaChar

/-- `t.startswith('NN')` on a POS tag. -/
def isNN (t : Str) : Bool := (str "NN").isPrefixOf t

/-- `t.startswith('VB')` on a POS tag. -/
def isVB (t : Str) : Bool := (str "VB").isPrefixOf t

/-- Python `" ".join(words)`. -/
def joinSpace (ws : List Str) : Str := List.intercalate [' '] ws

/-- Python `enumerate` starting at `k`. -/
def enumF (k : Nat) : List α → List (Nat × α)
  | [] => []
  | a :: l => (k, a) :: enumF (k + 1) l

theorem enumF_nil (k : Nat) : enumF k ([] : List α) = [] := rfl

theorem enumF_cons (k : Nat) (a : α) (l : List α) :
    enumF k (a :: l) = (k, a) :: enumF (k + 1) l := rfl

/-! ### Whole-word regex matching

The code builds patterns `r"\b" + re.escape(answer) + r"\b"` with
`re.IGNORECASE` and uses `re.search` / `re.sub(count=1)` /
`re.sub` (all occurrences) on them.  The answers involved are alphabetic
tokens, for which `re.escape` is the identity and `\b` at both ends means:
the character before (after) the match, when it exists, is not a word
character.  Case-insensitive comparison is modelled by comparing
`lowerStr` images. -/

/-- The slice `s[a:b]`. -/
def sliceCh (s : Str) (a b : Nat) : Str := (s.drop a).take (b - a)

/-- Does `\b w \b` match (case-insensitively) at position `i` of `s`?  `w` is
assumed to consist of word characters (true for the alphabetic answers the
code feeds in), so `\b` holds iff the neighbouring character is absent or a
non-word character. -/
def wwMatchAt (s w : Str) (i : Nat) : Bool :=
  decide (i + w.length ≤ s.length) &&
  decide (lowerStr (sliceCh s i (i + w.length)) = lowerStr w) &&
  (decide (i = 0) || !wordChar (s.getD (i - 1) ' ')) &&
  (decide (i + w.length = s.length) || !wordChar (s.getD (i + w.length) ' '))

/-- Position of the leftmost whole-word, case-insensitive match of `w` in `s`
at position `≥ start`, as found by `re` scanning left to right. -/
def findWholeWordFrom (s w : Str) (start : Nat) : Option Nat :=
  (List.range (s.length + 1)).find? (fun i => decide (start ≤ i) && wwMatchAt s w i)

/-- Leftmost whole-word case-insensitive match of `w` in `s`. -/
def findWholeWord (s w : Str) : Option Nat := findWholeWordFrom s w 0

/-- `mask_answer_in_sentence` (question_generation.py lines 68–73):
`re.search` for the whole word, then `re.sub(..., "_____", count=1)`;
`None` when there is no match. -/
def mask_answer_in_sentence (s answer : Str) : Option Str :=
  (findWholeWord s answer).map (fun i =>
    s.take i ++ str "_____" ++ s.drop (i + answer.length))

/-- `re.sub(pattern, repl, s, count=1, flags=re.IGNORECASE)` for a whole-word
pattern: replace the leftmost match, or return `s` unchanged if none
(used by `generate_true_false`, line 213). -/
def replaceFirstWW (s w repl : Str) : Str :=
  match findWholeWord s w with
  | none => s
  | some i => s.take i ++ repl ++ s.drop (i + w.length)

/-- All positions of the non-overlapping left-to-right whole-word matches of
`w` in `s`, as scanned by `re.sub` without a count.  Fuel-based recursion:
each step advances the scan position by at least `w.length`. -/
def findAllWWAux (s w : Str) : Nat → Nat → List Nat
  | 0, _ => []
  | fuel + 1, start =>
    match findWholeWordFrom s w start with
    | none => []
    | some i => i :: findAllWWAux s w fuel (i + w.length)

/-- All non-overlapping whole-word match positions of `w` in `s`. -/
def findAllWW (s w : Str) : List Nat := findAllWWAux s w (s.length + 1) 0

/-- Rebuild a string wrapping the match at each listed position in `*`…`*`,
keeping the original case of the matched slice (backreference `\1`). -/
def wrapGo (s w : Str) (cur : Nat) : List Nat → Str
  | [] => s.drop cur
  | i :: rest =>
    sliceCh s cur i ++ ('*' :: sliceCh s i (i + w.length)) ++ '*' :: wrapGo s w (i + w.length) rest

/-- The local `highlight` of `generate_short_answers` (lines 269–270):
`re.sub(rf"\b({re.escape(word)})\b", r"*\1*", text, flags=re.IGNORECASE)`. -/
def highlight (word text : Str) : Str := wrapGo text word 0 (findAllWW text word)

/-! ### Data model and external collaborators -/

/-- A synthesized question item (the dicts appended by the four generators).
Non-MCQ items carry an empty `options` list. -/
structure Question where
  qtype : Str
  question : Str
  options : List Str
  answer : Str
deriving DecidableEq, Repr

/-- The POS tagging adapter: `get_pos_tags` returns `(words, tagged)` where
`tagged = pos_tag(words)` pairs each token with its tag; `words` is recovered
as `(tag s).map Prod.fst`.  The `_pos_cache` memoisation is semantically
transparent because tagging is a pure function of the sentence string. -/
abbrev Tagger := Str → List (Str × Str)

/-- Oracle for the shared `random` stream.  Each field models one call site,
indexed by the position of the sentence being processed; theorems constrain
fields by exactly what the corresponding primitive guarantees. -/
structure RandO where
  /-- `random.choice(candidates)` in `select_key_noun`, called from `generate_mcq`. -/
  mcqChoice : Nat → List Str → Str
  /-- `random.sample(other_nouns, 3)` in `generate_mcq`. -/
  mcqSample : Nat → List Str → List Str
  /-- `random.shuffle(options)` in `generate_mcq`. -/
  mcqShuffle : Nat → List Str → List Str
  /-- `random.choice(candidates)` in `select_key_noun`, called from `generate_fill`. -/
  fillChoice : Nat → List Str → Str
  /-- `random.sample(range(n), n // 2)` in `generate_true_false`. -/
  tfFalseIdx : Nat → List Nat
  /-- `random.random() < 0.7` in `generate_true_false`. -/
  tfUseVerb : Nat → Bool
  /-- `random.choice(["not", "never"])` in `generate_true_false`. -/
  tfNegWord : Nat → List Str → Str
  /-- `random.choice(nouns)` in `generate_true_false`. -/
  tfNounPick : Nat → List Str → Str
  /-- `random.choice([n for n in FALSE_NOUNS if ...])` in `generate_true_false`. -/
  tfReplPick : Nat → List Str → Str
  /-- `random.choice(candidates)` in `select_key_noun`, called from `generate_short_answers`. -/
  saChoice : Nat → List Str → Str
  /-- `random.choice(question_templates)` in `generate_short_answers`. -/
  saTemplate : Nat → List Str → Str

/-- `COMMON_EXCLUDES` (question_generation.py lines 15–19). -/
def COMMON_EXCLUDES : List Str :=
  [ str "thing", str "something", str "anything", str "everything", str "nothing",
    str "time", str "people", str "way", str "kind", str "part", str "place",
    str "work", str "system", str "process", str "example", str "method",
    str "data", str "information" ]

/-- `select_key_noun` (lines 60–65), with the `random.choice` modelled by the
`pick` oracle, only consulted when the candidate pool is non-empty. -/
def select_key_noun (tagged : List (Str × Str)) (pick : List Str → Str) : Option Str :=
  let nouns := (tagged.filter (fun p =>
    isNN p.2 && isAlphaStr p.1 && decide (4 ≤ p.1.length))).map Prod.fst
  let candidates := nouns.filter (fun n => !decide (lowerStr n ∈ COMMON_EXCLUDES))
  if candidates.isEmpty then none else some (pick candidates)

/-! ### MCQ generation (lines 77–115) -/

/-- The `other_nouns` comprehension of `generate_mcq` (lines 96–97):
`[w for w, t in tagged if t.startswith('NN') and w.lower() != answer.lower()
and w.isalpha() and len(w) >= 4]`. -/
def otherNounList (tagged : List (Str × Str)) (answer : Str) : List Str :=
  (tagged.filter (fun p =>
    isNN p.2 && !decide (lowerStr p.1 = lowerStr answer) &&
    isAlphaStr p.1 && decide (4 ≤ p.1.length))).map Prod.fst

/-- One iteration of the `generate_mcq` loop on the sentence at position `i`. -/
def mcqStep (tag : Tagger) (r : RandO) (i : Nat) (s0 : Str) : Option Question :=
  let s := normalize_sentence s0
  let tagged := tag s
  match select_key_noun tagged (r.mcqChoice i) with
  | none => none
  | some answer =>
    match mask_answer_in_sentence s answer with
    | none => none
    | some qRaw =>
      let q_text := capitalize_first qRaw
      let other_nouns := otherNounList tagged answer
      if other_nouns.length < 3 then none
      else
        let distractors := r.mcqSample i other_nouns
        let options := (r.mcqShuffle i (answer :: distractors)).map capitalize_first
        some ⟨str "MCQ", q_text, options, capitalize_first answer⟩

/-- `generate_mcq` (question_generation.py lines 77–115). -/
def generate_mcq (tag : Tagger) (r : RandO) (sentences : List Str) : List Question :=
  (enumF 0 sentences).filterMap (fun p => mcqStep tag r p.1 p.2)

/-! ### Fill-in-the-blank generation (lines 119–159) -/

/-- One iteration of the `generate_fill` loop. -/
def fillStep (tag : Tagger) (r : RandO) (i : Nat) (s0 : Str) : Option Question :=
  let s := normalize_sentence s0
  let tagged := tag s
  let words := tagged.map Prod.fst
  match select_key_noun tagged (r.fillChoice i) with
  | none => none
  | some ans =>
    let original_ans := (words.find? (fun w => decide (lowerStr w = lowerStr ans))).getD ans
    match mask_answer_in_sentence s ans with
    | none => none
    | some q =>
      let q_trimmed := trim q
      let q2 :=
        if (str "_____").isPrefixOf q_trimmed then
          match lowFirstAlpha (q_trimmed.drop 5) with
          | some ab => str "_____" ++ ab
          | none => q
        else capitalize_first q
      some ⟨str "Fill-in-the-Blank", q2, [], original_ans⟩

/-- `generate_fill` (question_generation.py lines 119–159). -/
def generate_fill (tag : Tagger) (r : RandO) (sentences : List Str) : List Question :=
  (enumF 0 sentences).filterMap (fun p => fillStep tag r p.1 p.2)

/-! ### True/False generation (lines 163–225) -/

/-- `FALSE_NOUNS` (line 187). -/
def FALSE_NOUNS : List Str :=
  [str "X", str "Y", str "Z", str "placeholder", str "alternative", str "substitute"]

/-- Strategy 2 of `generate_true_false` (lines 208–214): swap a noun for a
placeholder.  Returns `none` when no noun exists or the substitution leaves
the sentence unchanged (then `make_false and q_text == s` drops the item). -/
def tfNounSwap (tag : Tagger) (r : RandO) (i : Nat) (s : Str) : Option Question :=
  let tagged := tag s
  let nouns := (tagged.filter (fun p => isNN p.2 && decide (3 < p.1.length))).map Prod.fst
  if nouns.isEmpty then none
  else
    let to_replace := r.tfNounPick i nouns
    let replacement :=
      r.tfReplPick i (FALSE_NOUNS.filter (fun n => !decide (lowerStr n = lowerStr to_replace)))
    let q_text := replaceFirstWW s to_replace replacement
    if q_text = s then none
    else some ⟨str "True/False", str "True or False: " ++ capitalize_first q_text, [], str "False"⟩

/-- One iteration of the `generate_true_false` loop on the (already
normalized) eligible sentence at position `i`; `fi` is the pre-drawn
`false_indices` set. -/
def tfStep (tag : Tagger) (r : RandO) (fi : List Nat) (i : Nat) (s : Str) : Option Question :=
  if fi.contains i then
    let tagged := tag s
    let words := tagged.map Prod.fst
    let verbs := (enumF 0 tagged).filter (fun p => isVB p.2.2)
    match verbs.head? with
    | some v =>
      if r.tfUseVerb i then
        let negation := r.tfNegWord i [str "not", str "never"]
        let new_words := words.take (v.1 + 1) ++ negation :: words.drop (v.1 + 1)
        let q_text := joinSpace new_words
        if q_text = s then none
        else some ⟨str "True/False", str "True or False: " ++ capitalize_first q_text, [],
          str "False"⟩
      else tfNounSwap tag r i s
    | none => tfNounSwap tag r i s
  else some ⟨str "True/False", str "True or False: " ++ capitalize_first s, [], str "True"⟩

/-- `generate_true_false` (question_generation.py lines 163–225). -/
def generate_true_false (tag : Tagger) (r : RandO) (sentences : List Str) : List Question :=
  let valid := (sentences.filter (fun s => decide (6 < wordCount s))).map normalize_sentence
  if valid.isEmpty then []
  else
    let fi := r.tfFalseIdx valid.length
    (enumF 0 valid).filterMap (fun p => tfStep tag r fi p.1 p.2)

/-! ### Short-answer generation (lines 229–286) -/

/-- The apostrophe character used in the short-answer templates. -/
def apos : Char := Char.ofNat 39

/-- The three `question_templates` (lines 261–265). -/
def saTemplates (answer : Str) : List Str :=
  [ str "What does " ++ apos :: answer ++ apos :: str " mean in the following context?",
    str "Explain the term " ++ apos :: answer ++ apos :: str " as used here.",
    str "What is meant by " ++ apos :: answer ++ apos :: str " in this sentence?" ]

/-- `re.match(r"^\d+\.", s)`: does `s` start with one or more digits followed
by a dot?  The digits preceding the dot are never dots, so the dot can only
match right after the maximal digit run. -/
def startsNumDot (s : Str) : Bool :=
  let ds := s.takeWhile digitChar
  !ds.isEmpty && decide ((s.drop ds.length).head? = some '.')

/-- `[A-Za-z]{2,4}\d{2,}` anchored at position 0 with exactly `k` letters. -/
def codeAt (s : Str) (k : Nat) : Bool :=
  decide (k + 2 ≤ s.length) && (s.take k).all alphaChar &&
  digitChar (s.getD k ' ') && digitChar (s.getD (k + 1) ' ')

/-- `re.match(r"^\d+\.|[A-Za-z]{2,4}\d{2,}", s)` (line 240): either branch of
the alternation must match at position 0. -/
def codeOrListMarker (s : Str) : Bool :=
  startsNumDot s || codeAt s 2 || codeAt s 3 || codeAt s 4

/-- `NUMBER_PREFIX_PATTERN.sub("", s)`: remove a leading `\d+\.\s*` run. -/
def dropNumDot (s : Str) : Str :=
  let ds := s.takeWhile digitChar
  if ds.isEmpty then s
  else
    match s.drop ds.length with
    | '.' :: rest => rest.dropWhile wsChar
    | _ => s

/-- Python `s.strip(" .")`: drop spaces and dots at both ends. -/
def stripDotSpace (s : Str) : Str :=
  let p : Char → Bool := fun c => decide (c = ' ') || decide (c = '.')
  ((s.dropWhile p).reverse.dropWhile p).reverse

/-- Python `w in s` substring test. -/
def subStrQ (s w : Str) : Bool :=
  (List.range (s.length + 1)).any
    (fun i => decide (i + w.length ≤ s.length ∧ sliceCh s i (i + w.length) = w))

/-- One iteration of the `generate_short_answers` loop. -/
def saStep (tag : Tagger) (r : RandO) (i : Nat) (s0 : Str) : Option Question :=
  let s := normalize_sentence s0
  let word_count := wordCount s
  if word_count < 6 ∨ 30 < word_count then none
  else if codeOrListMarker s then none
  else
    let s_clean := stripDotSpace (dropNumDot s)
    let tagged := tag s_clean
    match select_key_noun tagged (r.saChoice i) with
    | none => none
    | some answer =>
      if !subStrQ (lowerStr s_clean) (lowerStr answer) then none
      else
        let context_phrase := s_clean
        let prompt := r.saTemplate i (saTemplates answer)
        let answer_text := highlight answer context_phrase
        if lowerStr (trim answer_text) = lowerStr (trim answer) ∨ wordCount answer_text < 5 then
          none
        else
          some ⟨str "Short Answer", prompt ++ str "\nContext: " ++ context_phrase, [],
            capitalize_first answer_text⟩

/-- `generate_short_answers` (question_generation.py lines 229–286). -/
def generate_short_answers (tag : Tagger) (r : RandO) (sentences : List Str) : List Question :=
  (enumF 0 sentences).filterMap (fun p => saStep tag r p.1 p.2)

/-! ### Sentence ranking, tfidf path (preprocessing.py lines 45–90)

The sentence scores are computed by the code in IEEE floating point; they are
modelled here as exact fractions.  A fraction is kept as an explicit
numerator/denominator pair (with a positivity witness) rather than as `ℚ`
so that concrete runs reduce inside the kernel; comparisons cross-multiply.
The logarithm inside the smoothed IDF, `math.log((N+1)/(1+df)) + 1.0`, is not
algebraic, so the per-`df` IDF value is a parameter `idfF` of the ranking
function; all ordering/selection facts proved below hold for every `idfF`. -/

/-- An exact (not necessarily reduced) fraction with positive denominator. -/
structure Frac where
  num : Int
  den : Nat
  den_pos : 0 < den

/-- The float `0.0` that initialises `s_score`. -/
def fracZero : Frac := ⟨0, 1, Nat.one_pos⟩

/-- Exact model of float addition `+`. -/
def fracAdd (a b : Frac) : Frac :=
  ⟨a.num * b.den + b.num * a.den, a.den * b.den, Nat.mul_pos a.den_pos b.den_pos⟩

/-- Exact model of float multiplication `*`. -/
def fracMul (a b : Frac) : Frac :=
  ⟨a.num * b.num, a.den * b.den, Nat.mul_pos a.den_pos b.den_pos⟩

/-- The quotient `n / d` of two naturals as a fraction. -/
def fracOfRatio (n d : Nat) (h : 0 < d) : Frac := ⟨n, d, h⟩

/-- The rational value of a fraction (used only in proofs). -/
def fracVal (a : Frac) : ℚ := (a.num : ℚ) / (a.den : ℚ)

/-- The tuple comparison performed by `scores.sort(reverse=True)` on
`(score, idx)` pairs: `x` may precede `y` iff `x ≥ y` in the lexicographic
order, with float `<` and `==` decided exactly by cross-multiplication.
Python's `list.sort` is a stable comparison sort, and the `idx` components
are pairwise distinct here, so the sorted result is the unique ordering
sorted by this total relation — any correct sorting algorithm produces it;
the executable model below uses insertion sort. -/
def tupGe (x y : Frac × Nat) : Prop :=
  y.1.num * x.1.den < x.1.num * y.1.den ∨
  (x.1.num * y.1.den = y.1.num * x.1.den ∧ y.2 ≤ x.2)

instance : DecidableRel tupGe := fun x y => by unfold tupGe; infer_instance

/-- Modelled from the spec (§4.1): the comparison the spec describes —
descending by score with ties broken by original document order, i.e.
ascending index among equal scores. -/
def tupGeSpecOrder (x y : Frac × Nat) : Prop :=
  y.1.num * x.1.den < x.1.num * y.1.den ∨
  (x.1.num * y.1.den = y.1.num * x.1.den ∧ x.2 ≤ y.2)

instance : DecidableRel tupGeSpecOrder := fun x y => by unfold tupGeSpecOrder; infer_instance

/-- The score of one sentence's stop-word-filtered token list (lines 74–86):
`0.0` for an empty list, otherwise
`sum over distinct w of (count w / length) * idf(df w)`. -/
def sentScore (idfF : Nat → Frac) (dfF : Str → Nat) (toks : List Str) : Frac :=
  if h : toks = [] then fracZero
  else
    ((toks.dedup.map (fun w =>
      fracMul (fracOfRatio (toks.count w) toks.length
        (List.length_pos.mpr h)) (idfF (dfF w)))).foldl fracAdd fracZero)

/-- The `sentences` list of the tfidf branch (line 59):
`[s.strip() for s in sent_tokenize(raw_text) if len(s.strip().split()) > 4]`,
with `sents` standing for the `sent_tokenize` output. -/
def eligibleSentences (sents : List Str) : List Str :=
  (sents.map trim).filter (fun s => decide (4 < wordCount s))

/-- `tokenized_nostop` (lines 63–64): keep tokens starting with an ASCII
letter (`re.match(r"[a-zA-Z]+", w)`), lowercase them, drop stop words. -/
def tfidfTokenLists (wtok : Str → List Str) (sw : Str → Bool) (sents : List Str) :
    List (List Str) :=
  (((eligibleSentences sents).map (fun s =>
    ((wtok s).filter (fun w => alphaChar (w.headD ' '))).map lowerStr)).map
    (fun ts => ts.filter (fun w => !sw w)))

/-- The document frequency `df` (lines 66–70): the number of *distinct*
tokenized sentences (note the `set(map(tuple, ...))` dedup) containing `w`. -/
def tfidfDf (wtok : Str → List Str) (sw : Str → Bool) (sents : List Str) (w : Str) : Nat :=
  ((tfidfTokenLists wtok sw sents).dedup).countP (fun ts => decide (w ∈ ts))

/-- The score of the sentence at index `i` (lines 74–86). -/
def tfidfScore (wtok : Str → List Str) (sw : Str → Bool) (idfF : Nat → Frac)
    (sents : List Str) (i : Nat) : Frac :=
  sentScore idfF (tfidfDf wtok sw sents) ((tfidfTokenLists wtok sw sents).getD i [])

/-- The `tfidf` branch of `rank_sentences` (preprocessing.py lines 57–90).
`wtok` models `word_tokenize`, `sw` the stop-word set, `idfF` the smoothed
IDF `log((N+1)/(1+df)) + 1` as an abstract function of the document
frequency (the logarithm is transcendental; every fact proved below holds
for all `idfF`), `target_cnt` the `target_count` computed at line 51, and
`sents` the `sent_tokenize(raw_text)` output.  `scores.sort(reverse=True)`
and `top_idx.sort()` are modelled by insertion sort, which agrees with any
stable sort here because the keys are pairwise distinct. -/
def rank_sentences_tfidf (wtok : Str → List Str) (sw : Str → Bool) (idfF : Nat → Frac)
    (target_cnt : Nat) (sents : List Str) : List Str :=
  let sentences := eligibleSentences sents
  if sentences.isEmpty then []
  else
    let tokenized_nostop := tfidfTokenLists wtok sw sents
    let scores := (enumF 0 tokenized_nostop).map
      (fun p => (sentScore idfF (tfidfDf wtok sw sents) p.2, p.1))
    let sortedScores := List.insertionSort tupGe scores
    let top_idx := (sortedScores.take target_cnt).map Prod.snd
    let topSorted := List.insertionSort (· ≤ ·) top_idx
    topSorted.map (fun i => sentences.getD i [])

/-- Modelled from the spec, for comparison with the code: the ranking order
described in §4.1 — "ranked descending by score; ties broken by original
document order (stable sort)" — followed by the same top-`target` selection
and ascending return.  It differs from `rank_sentences_tfidf` only in the
tie-break direction of the comparison. -/
def rank_tfidf_spec_model (wtok : Str → List Str) (sw : Str → Bool) (idfF : Nat → Frac)
    (target_cnt : Nat) (sents : List Str) : List Str :=
  let sentences := eligibleSentences sents
  if sentences.isEmpty then []
  else
    let tokenized_nostop := tfidfTokenLists wtok sw sents
    let scores := (enumF 0 tokenized_nostop).map
      (fun p => (sentScore idfF (tfidfDf wtok sw sents) p.2, p.1))
    let sortedScores := List.insertionSort tupGeSpecOrder scores
    let top_idx := (sortedScores.take target_cnt).map Prod.snd
    let topSorted := List.insertionSort (· ≤ ·) top_idx
    topSorted.map (fun i => sentences.getD i [])

/-- `target_count` (preprocessing.py line 51):
`max(5, min(total_sent // 5, 25))` where `total_sent = max(1, #sentences)`. -/
def target_count (total_sent : Nat) : Nat := max 5 (min (total_sent / 5) 25)

/-! ### Pipeline orchestration (run_pipeline.py) -/

/-- The unbatched generation path of `main` (run_pipeline.py lines 210–218):
run each requested synthesizer over the full list, in the order
MCQ, FillBlank, TrueFalse, ShortAnswer. -/
def direct_generation (tag : Tagger) (r : RandO) (normalized_types : List Str)
    (use_sentences : List Str) : List Question :=
  (if normalized_types.contains (str "mcq") then generate_mcq tag r use_sentences else []) ++
  (if normalized_types.contains (str "fill_blanks") then generate_fill tag r use_sentences
    else []) ++
  (if normalized_types.contains (str "true_false") then generate_true_false tag r use_sentences
    else []) ++
  (if normalized_types.contains (str "short_answer")
    then generate_short_answers tag r use_sentences else [])

/-- `batch_generate_questions` (run_pipeline.py lines 27–59): partition into
contiguous chunks of `batch_size` and run the per-batch if-chain of lines
45–52 — the same chain as `direct_generation` — on each chunk. -/
def batch_generate_questions (tag : Tagger) (r : RandO) (sentences : List Str)
    (question_types : List Str) (batch_size : Nat) : List Question :=
  let total_batches := (sentences.length + batch_size - 1) / batch_size
  ((List.range total_batches).map (fun b =>
    direct_generation tag r question_types
      ((sentences.drop (b * batch_size)).take batch_size))).flatten

/-- The generation phase of `main` (run_pipeline.py lines 207–228): batched
when `len(use_sentences) > BATCH_SIZE`, direct otherwise, followed by the
all-four-types retry when no questions were produced.  `r1` is the random
stream consumed by the first pass, `r2` the stream state the retry sees. -/
def generation_phase (tag : Tagger) (r1 r2 : RandO) (normalized_types : List Str)
    (use_sentences : List Str) (batch_size : Nat) : List Question :=
  let questions :=
    if batch_size < use_sentences.length then
      batch_generate_questions tag r1 use_sentences normalized_types batch_size
    else direct_generation tag r1 normalized_types use_sentences
  if questions.isEmpty then
    generate_mcq tag r2 use_sentences ++ generate_fill tag r2 use_sentences ++
    generate_true_false tag r2 use_sentences ++ generate_short_answers tag r2 use_sentences
  else questions

/-! ### Deterministic seeding (run_pipeline.py lines 174–180)

`seed_val = int(hashlib.md5(seed_str.encode("utf-8")).hexdigest(), 16) % (10**8)`
with `seed_str = cleaned_text[:10000]`.  MD5 is implemented concretely
(RFC 1321) over the UTF-8 bytes, so the seed is fully executable. -/

/-- Truncation to a 32-bit word. -/
def w32 (n : Nat) : Nat := n % 4294967296

/-- 32-bit bitwise complement (arguments are `< 2^32`). -/
def not32 (x : Nat) : Nat := 4294967295 - x

/-- 32-bit left rotation of `x` (assumed `< 2^32`) by `s` bits. -/
def rotl32 (x s : Nat) : Nat := w32 (x * 2 ^ s + x / 2 ^ (32 - s))

/-- MD5 auxiliary function F. -/
def md5F (b c d : Nat) : Nat := (b &&& c) ||| (not32 b &&& d)

/-- MD5 auxiliary function G. -/
def md5G (b c d : Nat) : Nat := (b &&& d) ||| (c &&& not32 d)

/-- MD5 auxiliary function H. -/
def md5H (b c d : Nat) : Nat := b ^^^ c ^^^ d

/-- MD5 auxiliary function I. -/
def md5I (b c d : Nat) : Nat := c ^^^ (b ||| not32 d)

/-- The 64 MD5 sine constants `floor(abs(sin(i+1)) * 2^32)`. -/
def md5K : List Nat :=
  [0xd76aa478, 0xe8c7b756, 0x242070db, 0xc1bdceee, 0xf57c0faf, 0x4787c62a,
   0xa8304613, 0xfd469501, 0x698098d8, 0x8b44f7af, 0xffff5bb1, 0x895cd7be,
   0x6b901122, 0xfd987193, 0xa679438e, 0x49b40821, 0xf61e2562, 0xc040b340,
   0x265e5a51, 0xe9b6c7aa, 0xd62f105d, 0x02441453, 0xd8a1e681, 0xe7d3fbc8,
   0x21e1cde6, 0xc33707d6, 0xf4d50d87, 0x455a14ed, 0xa9e3e905, 0xfcefa3f8,
   0x676f02d9, 0x8d2a4c8a, 0xfffa3942, 0x8771f681, 0x6d9d6122, 0xfde5380c,
   0xa4beea44, 0x4bdecfa9, 0xf6bb4b60, 0xbebfbc70, 0x289b7ec6, 0xeaa127fa,
   0xd4ef3085, 0x04881d05, 0xd9d4d039, 0xe6db99e5, 0x1fa27cf8, 0xc4ac5665,
   0xf4292244, 0x432aff97, 0xab9423a7, 0xfc93a039, 0x655b59c3, 0x8f0ccc92,
   0xffeff47d, 0x85845dd1, 0x6fa87e4f, 0xfe2ce6e0, 0xa3014314, 0x4e0811a1,
   0xf7537e82, 0xbd3af235, 0x2ad7d2bb, 0xeb86d391]

/-- The 64 MD5 per-round shift amounts. -/
def md5S : List Nat :=
  [7, 12, 17, 22, 7, 12, 17, 22, 7, 12, 17, 22, 7, 12, 17, 22,
   5, 9, 14, 20, 5, 9, 14, 20, 5, 9, 14, 20, 5, 9, 14, 20,
   4, 11, 16, 23, 4, 11, 16, 23, 4, 11, 16, 23, 4, 11, 16, 23,
   6, 10, 15, 21, 6, 10, 15, 21, 6, 10, 15, 21, 6, 10, 15, 21]

/-- The message-word index used in MD5 round `i`. -/
def md5g (i : Nat) : Nat :=
  if i < 16 then i
  else if i < 32 then (5 * i + 1) % 16
  else if i < 48 then (3 * i + 5) % 16
  else (7 * i) % 16

/-- The auxiliary function used in MD5 round `i`. -/
def md5f (i b c d : Nat) : Nat :=
  if i < 16 then md5F b c d
  else if i < 32 then md5G b c d
  else if i < 48 then md5H b c d
  else md5I b c d

/-- The MD5 chaining state. -/
structure MD5State where
  a : Nat
  b : Nat
  c : Nat
  d : Nat

/-- MD5 initial state. -/
def md5Init : MD5State := ⟨0x67452301, 0xefcdab89, 0x98badcfe, 0x10325476⟩

/-- Group bytes into little-endian 32-bit words. -/
def bytesToWords : List Nat → List Nat
  | b0 :: b1 :: b2 :: b3 :: rest =>
    (b0 + 256 * b1 + 65536 * b2 + 16777216 * b3) :: bytesToWords rest
  | _ => []

/-- One MD5 round on a block's word list `M`. -/
def md5Round (M : List Nat) (st : MD5State) (i : Nat) : MD5State :=
  let f := md5f i st.b st.c st.d
  let rot := rotl32 (w32 (st.a + f + md5K.getD i 0 + M.getD (md5g i) 0)) (md5S.getD i 0)
  ⟨st.d, w32 (st.b + rot), st.b, st.c⟩

/-- Process one 64-byte block. -/
def md5Block (st0 : MD5State) (block : List Nat) : MD5State :=
  let M := bytesToWords block
  let st := (List.range 64).foldl (md5Round M) st0
  ⟨w32 (st0.a + st.a), w32 (st0.b + st.b), w32 (st0.c + st.c), w32 (st0.d + st.d)⟩

/-- RFC 1321 padding: `0x80`, zeros to 56 mod 64, 8-byte little-endian
bit length. -/
def md5Pad (msg : List Nat) : List Nat :=
  let len := msg.length
  let z := (120 - (len + 1) % 64) % 64
  let L := (8 * len) % 2 ^ 64
  msg ++ 128 :: List.replicate z 0 ++
    [L % 256, L / 256 % 256, L / 256 ^ 2 % 256, L / 256 ^ 3 % 256,
     L / 256 ^ 4 % 256, L / 256 ^ 5 % 256, L / 256 ^ 6 % 256, L / 256 ^ 7 % 256]

/-- Split into 64-byte chunks (the input length is a multiple of 64). -/
def chunks64Aux : Nat → List Nat → List (List Nat)
  | 0, _ => []
  | _ + 1, [] => []
  | fuel + 1, l => l.take 64 :: chunks64Aux fuel (l.drop 64)

/-- Split a padded message into its 64-byte blocks. -/
def chunks64 (l : List Nat) : List (List Nat) := chunks64Aux l.length l

/-- The four bytes of a 32-bit word, little-endian. -/
def wordLEBytes (x : Nat) : List Nat :=
  [x % 256, x / 256 % 256, x / 65536 % 256, x / 16777216 % 256]

/-- The 16-byte MD5 digest of a byte string. -/
def md5Bytes (msg : List Nat) : List Nat :=
  let st := (chunks64 (md5Pad msg)).foldl md5Block md5Init
  wordLEBytes st.a ++ wordLEBytes st.b ++ wordLEBytes st.c ++ wordLEBytes st.d

/-- `int(md5(msg).hexdigest(), 16)`: the digest read as a big-endian
hexadecimal numeral. -/
def md5Int (msg : List Nat) : Nat := (md5Bytes msg).foldl (fun acc b => acc * 256 + b) 0

/-- UTF-8 encoding of one character. -/
def utf8Encode (c : Char) : List Nat :=
  let n := c.toNat
  if n < 128 then [n]
  else if n < 2048 then [192 + n / 64, 128 + n % 64]
  else if n < 65536 then [224 + n / 4096, 128 + n / 64 % 64, 128 + n % 64]
  else [240 + n / 262144, 128 + n / 4096 % 64, 128 + n / 64 % 64, 128 + n % 64]

/-- `s.encode("utf-8")`. -/
def utf8Str (s : Str) : List Nat := (s.map utf8Encode).flatten

/-- The derived random seed (run_pipeline.py lines 176–177):
`int(md5(cleaned_text[:10000].encode("utf-8")).hexdigest(), 16) % 10^8`. -/
def seed_val (cleaned_text : Str) : Nat :=
  md5Int (utf8Str (cleaned_text.take 10000)) % 10 ^ 8

/-! ### Character-level helper lemmas -/

theorem char_eq_of_toNat_eq {a b : Char} (h : a.toNat = b.toNat) : a = b := by
  apply Char.ext
  exact UInt32.ext h

theorem toNat_ofNat_of_lt {n : Nat} (h : n < 55296) : (Char.ofNat n).toNat = n := by
  have hv : n.isValidChar := Or.inl h
  simp [Char.ofNat, hv, Char.ofNatAux, Char.toNat, UInt32.toNat]

theorem alphaChar_not_ws {c : Char} (h : alphaChar c = true) : wsChar c = false := by
  simp only [alphaChar, asciiUpperQ, asciiLowerQ, Bool.or_eq_true, decide_eq_true_eq] at h
  simp only [wsChar, Bool.or_eq_false_iff, decide_eq_false_iff_not]
  omega

theorem lowerChar_upperChar (c : Char) :
    lowerChar (upperChar c) = lowerChar c := by
  unfold upperChar
  by_cases hl : asciiLowerQ c = true
  · rw [if_pos hl]
    have hln : 97 ≤ c.toNat ∧ c.toNat ≤ 122 := by simpa [asciiLowerQ] using hl
    have h1 : (Char.ofNat (c.toNat - 32)).toNat = c.toNat - 32 := toNat_ofNat_of_lt (by omega)
    have hu : asciiUpperQ (Char.ofNat (c.toNat - 32)) = true := by
      simp only [asciiUpperQ, h1, decide_eq_true_eq]; constructor <;> omega
    have hu2 : asciiUpperQ c = false := by
      simp only [asciiUpperQ, decide_eq_false_iff_not]; omega
    unfold lowerChar
    rw [if_pos hu, if_neg (by simp [hu2])]
    apply char_eq_of_toNat_eq
    rw [toNat_ofNat_of_lt (by rw [h1]; omega), h1]
    omega
  · rw [if_neg hl]

theorem lowerChar_toNat_eq {c : Char} : (lowerChar c).toNat = c.toNat ∨
    (lowerChar c).toNat = c.toNat + 32 := by
  unfold lowerChar
  by_cases hu : asciiUpperQ c = true
  · simp only [asciiUpperQ, decide_eq_true_eq] at hu
    right
    simp only [asciiUpperQ, decide_eq_true_eq, hu, if_pos, and_self]
    exact toNat_ofNat_of_lt (by omega)
  · simp [hu]

/-! ### String-level helper lemmas -/

theorem length_lowerStr (s : Str) : (lowerStr s).length = s.length := by
  simp [lowerStr]

theorem dropWhile_eq_self_of_none {p : Char → Bool} {l : Str}
    (h : ∀ c ∈ l, p c = false) : l.dropWhile p = l := by
  cases l with
  | nil => rfl
  | cons c rest => simp [List.dropWhile_cons, h c (List.mem_cons_self c rest)]

theorem trim_eq_self_of_no_ws {w : Str} (h : ∀ c ∈ w, wsChar c = false) : trim w = w := by
  unfold trim trimLeft trimRight
  rw [dropWhile_eq_self_of_none h]
  rw [dropWhile_eq_self_of_none (fun c hc => h c (List.mem_reverse.mp hc))]
  exact List.reverse_reverse w

theorem isAlphaStr_no_ws {w : Str} (h : isAlphaStr w = true) : ∀ c ∈ w, wsChar c = false := by
  intro c hc
  simp only [isAlphaStr, Bool.and_eq_true, List.all_eq_true] at h
  exact alphaChar_not_ws (h.2 c hc)

theorem lowerStr_capitalize_first {w : Str} (h : isAlphaStr w = true) :
    lowerStr (capitalize_first w) = lowerStr w := by
  unfold capitalize_first
  rw [trim_eq_self_of_no_ws (isAlphaStr_no_ws h)]
  simp only [isAlphaStr, Bool.and_eq_true, List.all_eq_true] at h
  obtain ⟨hne, hall⟩ := h
  cases w with
  | nil => rfl
  | cons c rest =>
    have hc : alphaChar c = true := hall c (List.mem_cons_self c rest)
    simp only [capFirstAux, hc, if_pos, lowerStr, List.map_cons]
    rw [lowerChar_upperChar c]

theorem length_capitalize_first {w : Str} (h : isAlphaStr w = true) :
    (capitalize_first w).length = w.length := by
  have := congrArg List.length (lowerStr_capitalize_first h)
  rwa [length_lowerStr, length_lowerStr] at this

theorem findWholeWord_congr {w w' : Str} (s : Str) (h : lowerStr w = lowerStr w') :
    findWholeWord s w = findWholeWord s w' := by
  have hl : w.length = w'.length := by
    have := congrArg List.length h
    rwa [length_lowerStr, length_lowerStr] at this
  simp only [findWholeWord, findWholeWordFrom, wwMatchAt, hl, h]

/-! ### Word-count preservation under normalization -/

theorem wcAux_ws_nil {u : Str} (hu : ∀ c ∈ u, wsChar c = true) (b : Bool) : wcAux b u = 0 := by
  induction u generalizing b with
  | nil => rfl
  | cons c rest ih =>
    have hc := hu c (List.mem_cons_self c rest)
    simp only [wcAux, hc, if_pos]
    exact ih (fun d hd => hu d (List.mem_cons_of_mem c hd)) false

theorem wcAux_append_ws {u : Str} (hu : ∀ c ∈ u, wsChar c = true) (l : Str) (b : Bool) :
    wcAux b (l ++ u) = wcAux b l := by
  induction l generalizing b with
  | nil => simpa [wcAux] using wcAux_ws_nil hu b
  | cons c rest ih =>
    by_cases hc : wsChar c = true
    · simp only [List.cons_append, wcAux, hc, if_pos]; exact ih false
    · simp only [List.cons_append, wcAux, hc, Bool.false_eq_true, if_neg]
      cases b <;> simp [ih]

theorem wcAux_dropWhile_ws (l : Str) : wcAux false (l.dropWhile wsChar) = wcAux false l := by
  induction l with
  | nil => rfl
  | cons c rest ih =>
    by_cases hc : wsChar c = true
    · simp only [List.dropWhile_cons, hc, if_pos, ih, wcAux]
    · simp [List.dropWhile_cons, hc]

theorem wordCount_trim (s : Str) : wordCount (trim s) = wordCount s := by
  have h0 := List.takeWhile_append_dropWhile wsChar (s.dropWhile wsChar).reverse
  have hsplit : s.dropWhile wsChar =
      ((s.dropWhile wsChar).reverse.dropWhile wsChar).reverse ++
      ((s.dropWhile wsChar).reverse.takeWhile wsChar).reverse := by
    rw [← List.reverse_append, h0, List.reverse_reverse]
  unfold trim trimLeft trimRight wordCount
  rw [← wcAux_dropWhile_ws s]
  conv_rhs => rw [hsplit]
  rw [wcAux_append_ws (fun c hc => List.mem_takeWhile_imp (List.mem_reverse.mp hc))]

theorem wcAux_collapse (s : Str) :
    wcAux false (collapseWsAux false s) = wcAux false s ∧
    wcAux false (collapseWsAux true s) = wcAux false s ∧
    wcAux true (collapseWsAux false s) = wcAux true s := by
  induction s with
  | nil => exact ⟨rfl, rfl, rfl⟩
  | cons c rest ih =>
    obtain ⟨ih1, ih2, ih3⟩ := ih
    have hsp : wsChar ' ' = true := rfl
    by_cases hc : wsChar c = true
    · have e1 : collapseWsAux false (c :: rest) = ' ' :: collapseWsAux true rest := by
        simp [collapseWsAux, hc]
      have e2 : collapseWsAux true (c :: rest) = collapseWsAux true rest := by
        simp [collapseWsAux, hc]
      refine ⟨?_, ?_, ?_⟩
      · rw [e1]; simp only [wcAux, hsp, if_pos, hc]; exact ih2
      · rw [e2]; simp only [wcAux, hc, if_pos]; exact ih2
      · rw [e1]; simp only [wcAux, hsp, if_pos, hc]; exact ih2
    · have e1 : collapseWsAux false (c :: rest) = c :: collapseWsAux false rest := by
        simp [collapseWsAux, hc]
      have e2 : collapseWsAux true (c :: rest) = c :: collapseWsAux false rest := by
        simp [collapseWsAux, hc]
      refine ⟨?_, ?_, ?_⟩
      · rw [e1]; simp [wcAux, hc, ih3]
      · rw [e2]; simp [wcAux, hc, ih3]
      · rw [e1]; simp [wcAux, hc, ih3]

theorem wordCount_normalize (s : Str) : wordCount (normalize_sentence s) = wordCount s := by
  unfold normalize_sentence
  rw [wordCount_trim]
  exact (wcAux_collapse s).1

/-! ### Extraction lemmas for the synthesizer steps -/

theorem enumF_mem {l : List α} {p : Nat × α} :
    ∀ {k : Nat}, p ∈ enumF k l → p.2 ∈ l := by
  induction l with
  | nil => intro k h; simp [enumF] at h
  | cons a rest ih =>
    intro k h
    rw [enumF_cons] at h
    rcases List.mem_cons.mp h with h | h
    · subst h; exact List.mem_cons_self a rest
    · exact List.mem_cons_of_mem a (ih h)

theorem select_key_noun_some {tagged : List (Str × Str)} {pick : List Str → Str} {ans : Str}
    (hpick : ∀ l : List Str, l ≠ [] → pick l ∈ l)
    (h : select_key_noun tagged pick = some ans) :
    (∃ t, (ans, t) ∈ tagged ∧ isNN t = true) ∧ isAlphaStr ans = true ∧ 4 ≤ ans.length := by
  simp only [select_key_noun] at h
  split at h
  · exact absurd h (by simp)
  · rename_i hne
    have hmem : ans ∈ (((tagged.filter (fun p =>
        isNN p.2 && isAlphaStr p.1 && decide (4 ≤ p.1.length))).map Prod.fst).filter
        (fun n => !decide (lowerStr n ∈ COMMON_EXCLUDES))) := by
      rw [← Option.some_inj.mp h]
      exact hpick _ (fun he => hne (by rw [he]; rfl))
    have hmem2 := (List.mem_filter.mp hmem).1
    obtain ⟨p, hp, hfst⟩ := List.mem_map.mp hmem2
    obtain ⟨hptag, hpred⟩ := List.mem_filter.mp hp
    simp only [Bool.and_eq_true, decide_eq_true_eq] at hpred
    have hpe : (ans, p.2) = p := by rw [← hfst]
    refine ⟨⟨p.2, by rwa [hpe], hpred.1.1⟩, ?_, ?_⟩
    · rw [← hfst]; exact hpred.1.2
    · rw [← hfst]; exact hpred.2

theorem otherNounList_mem {tagged : List (Str × Str)} {answer d : Str}
    (h : d ∈ otherNounList tagged answer) :
    (∃ t, (d, t) ∈ tagged ∧ isNN t = true) ∧ lowerStr d ≠ lowerStr answer ∧
    isAlphaStr d = true ∧ 4 ≤ d.length := by
  obtain ⟨p, hp, hfst⟩ := List.mem_map.mp h
  obtain ⟨hptag, hpred⟩ := List.mem_filter.mp hp
  simp only [Bool.and_eq_true, Bool.not_eq_true', decide_eq_false_iff_not,
    decide_eq_true_eq] at hpred
  have hpe : (d, p.2) = p := by rw [← hfst]
  exact ⟨⟨p.2, by rwa [hpe], hpred.1.1.1⟩, by rw [← hfst]; exact hpred.1.1.2,
    by rw [← hfst]; exact hpred.1.2, by rw [← hfst]; exact hpred.2⟩

theorem mcqStep_props {tag : Tagger} {r : RandO} {i : Nat} {s0 : Str} {q : Question}
    (hchoice : ∀ l : List Str, l ≠ [] → r.mcqChoice i l ∈ l)
    (hsample : ∀ l : List Str, 3 ≤ l.length →
      (r.mcqSample i l).length = 3 ∧ (r.mcqSample i l).Subperm l)
    (hshuffle : ∀ l : List Str, (r.mcqShuffle i l).Perm l)
    (hq : mcqStep tag r i s0 = some q) :
    ∃ ans ds,
      q.qtype = str "MCQ" ∧
      q.answer = capitalize_first ans ∧
      isAlphaStr ans = true ∧ 4 ≤ ans.length ∧
      (findWholeWord (normalize_sentence s0) ans).isSome = true ∧
      ds = r.mcqSample i (otherNounList (tag (normalize_sentence s0)) ans) ∧
      ds.length = 3 ∧
      ds.Subperm (otherNounList (tag (normalize_sentence s0)) ans) ∧
      3 ≤ (otherNounList (tag (normalize_sentence s0)) ans).length ∧
      q.options.Perm ((ans :: ds).map capitalize_first) := by
  simp only [mcqStep] at hq
  split at hq
  · exact absurd hq (by simp)
  · rename_i ans hsel
    split at hq
    · exact absurd hq (by simp)
    · rename_i qRaw hmask
      split at hq
      · exact absurd hq (by simp)
      · rename_i hlen
        obtain ⟨⟨t, htag, hNN⟩, halpha, hlen4⟩ := select_key_noun_some hchoice hsel
        have hle : 3 ≤ (otherNounList (tag (normalize_sentence s0)) ans).length := by omega
        obtain ⟨hslen, hsperm⟩ := hsample _ hle
        refine ⟨ans, r.mcqSample i (otherNounList (tag (normalize_sentence s0)) ans),
          ?_, ?_, halpha, hlen4, ?_, rfl, hslen, hsperm, hle, ?_⟩
        · rw [← Option.some_inj.mp hq]
        · rw [← Option.some_inj.mp hq]
        · have : findWholeWord (normalize_sentence s0) ans = some ((findWholeWord
            (normalize_sentence s0) ans).getD 0) := by
            rcases hfw : findWholeWord (normalize_sentence s0) ans with _ | j
            · rw [mask_answer_in_sentence, hfw] at hmask; exact absurd hmask (by simp)
            · rfl
          rw [this]; rfl
        · rw [← Option.some_inj.mp hq]
          exact (hshuffle _).map capitalize_first

theorem headD_mem {l : List α} {d : α} (h : l ≠ []) : l.headD d ∈ l := by
  cases l with
  | nil => exact absurd rfl h
  | cons a rest => simp [List.headD]

/-- A concrete valid instantiation of the random oracle: `choice` picks the
first element, `sample` the first three, `shuffle` is the identity
permutation, `sample(range(n), n // 2)` picks `range(n // 2)`. -/
def defaultRandO : RandO where
  mcqChoice := fun _ l => l.headD []
  mcqSample := fun _ l => l.take 3
  mcqShuffle := fun _ l => l
  fillChoice := fun _ l => l.headD []
  tfFalseIdx := fun n => List.range (n / 2)
  tfUseVerb := fun _ => true
  tfNegWord := fun _ l => l.headD []
  tfNounPick := fun _ l => l.headD []
  tfReplPick := fun _ l => l.headD []
  saChoice := fun _ l => l.headD []
  saTemplate := fun _ l => l.headD []

/-- A concrete tagger that marks every whitespace-separated token as a noun
(`NN`), the most permissive tagging for the generators. -/
def witTagNN : Tagger := fun s => (splitWords s).map (fun w => (w, str "NN"))

/-- C1: for every input sentence list, every MCQ item emitted by
`generate_mcq` has exactly 4 options, exactly one of which equals the item's
answer under case-insensitive comparison, and the answer occurs as a whole
word, case-insensitively, in the normalized source sentence the item was
derived from. -/
theorem claim_C1_mcq_invariants (tag : Tagger) (r : RandO)
    (hchoice : ∀ i (l : List Str), l ≠ [] → r.mcqChoice i l ∈ l)
    (hsample : ∀ i (l : List Str), 3 ≤ l.length →
      (r.mcqSample i l).length = 3 ∧ (r.mcqSample i l).Subperm l)
    (hshuffle : ∀ i (l : List Str), (r.mcqShuffle i l).Perm l)
    (sentences : List Str) (q : Question) (hq : q ∈ generate_mcq tag r sentences) :
    q.options.length = 4 ∧
    q.options.countP (fun o => decide (lowerStr o = lowerStr q.answer)) = 1 ∧
    ∃ s ∈ sentences, (findWholeWord (normalize_sentence s) q.answer).isSome = true := by
  obtain ⟨p, hp, hstep⟩ := List.mem_filterMap.mp hq
  obtain ⟨ans, ds, hty, hans, halpha, hlen4, hfw, hds, hdslen, hsub, hmany, hperm⟩ :=
    mcqStep_props (hchoice p.1) (hsample p.1) (hshuffle p.1) hstep
  refine ⟨?_, ?_, ?_⟩
  · rw [hperm.length_eq, List.length_map, List.length_cons, hdslen]
  · rw [List.Perm.countP_eq _ hperm, List.countP_map]
    have hcap : lowerStr (capitalize_first ans) = lowerStr ans := lowerStr_capitalize_first halpha
    rw [List.countP_cons]
    have hz : List.countP ((fun o => decide (lowerStr o = lowerStr q.answer)) ∘ capitalize_first)
        ds = 0 := by
      rw [List.countP_eq_zero]
      intro d hd
      obtain ⟨_, hne, hdalpha, _⟩ := otherNounList_mem (hsub.subset hd)
      simp only [Function.comp_apply, hans, decide_eq_true_eq,
        lowerStr_capitalize_first hdalpha, hcap]
      exact hne
    rw [hz]
    simp [hans, hcap]
  · refine ⟨p.2, enumF_mem hp, ?_⟩
    rw [hans, findWholeWord_congr _ (lowerStr_capitalize_first halpha)]
    exact hfw

/-- The input sentence of the C1 witness run. -/
def c1wSentence : Str := str "Mitochondria create energy for cellular biology students"

/-- The MCQ item produced on the C1 witness run. -/
def c1wQ : Question := (generate_mcq witTagNN defaultRandO [c1wSentence]).headD ⟨[], [], [], []⟩

theorem claim_C1_mcq_invariants_witness :
    c1wQ.options.length = 4 ∧
    c1wQ.options.countP (fun o => decide (lowerStr o = lowerStr c1wQ.answer)) = 1 ∧
    ∃ s ∈ [c1wSentence], (findWholeWord (normalize_sentence s) c1wQ.answer).isSome = true :=
  claim_C1_mcq_invariants witTagNN defaultRandO
    (fun _ _ h => headD_mem h)
    (fun _ l h => ⟨by show (l.take 3).length = 3; rw [List.length_take]; omega,
      by show (l.take 3).Subperm l; exact (List.take_sublist 3 l).subperm⟩)
    (fun _ l => List.Perm.refl l)
    [c1wSentence] c1wQ (by decide)

theorem contains_iff_memQ [DecidableEq α] {l : List α} {a : α} :
    l.contains a = true ↔ a ∈ l := by
  simp [List.contains_iff_exists_mem_beq]

/-- The input sentence of the C8 counterexample run: the noun `cells`
occurs twice, so the distractor pool contains a repeated string. -/
def c8wSentence : Str := str "tissue cells cells interact inside large structures today"

/-- C8 counterexample: with the tokens of `c8wSentence` all tagged as nouns,
the answer `tissue`, and `random.sample` drawing the first three distractor
positions (distinct positions, as `random.sample` does), the emitted MCQ item
carries the distractor string `Cells` twice: the three distractors are not
pairwise distinct strings. -/
theorem claim_C8_counterexample :
    (generate_mcq witTagNN defaultRandO [c8wSentence]).map Question.options =
      [[str "Tissue", str "Cells", str "Cells", str "Interact"]] ∧
    ¬ ([str "Tissue", str "Cells", str "Cells", str "Interact"] : List Str).Nodup := by
  exact ⟨by decide, by decide⟩

/-- C8 amended: every emitted MCQ item's 3 distractors are drawn at pairwise
distinct positions (a subpermutation) from the same-sentence pool
`other_nouns`, each case-insensitively distinct from the answer, alphabetic,
of length ≥ 4 — but they may coincide as strings when a noun repeats; a
sentence is skipped when fewer than 3 pool entries exist. -/
theorem claim_C8_amended (tag : Tagger) (r : RandO)
    (hchoice : ∀ i (l : List Str), l ≠ [] → r.mcqChoice i l ∈ l)
    (hsample : ∀ i (l : List Str), 3 ≤ l.length →
      (r.mcqSample i l).length = 3 ∧ (r.mcqSample i l).Subperm l)
    (hshuffle : ∀ i (l : List Str), (r.mcqShuffle i l).Perm l)
    (sentences : List Str) (q : Question) (hq : q ∈ generate_mcq tag r sentences) :
    ∃ s ∈ sentences, ∃ ans ds,
      q.answer = capitalize_first ans ∧
      q.options.Perm ((ans :: ds).map capitalize_first) ∧
      ds.length = 3 ∧
      ds.Subperm (otherNounList (tag (normalize_sentence s)) ans) ∧
      3 ≤ (otherNounList (tag (normalize_sentence s)) ans).length ∧
      ∀ d ∈ ds, lowerStr d ≠ lowerStr ans ∧ isAlphaStr d = true ∧ 4 ≤ d.length ∧
        ∃ t, (d, t) ∈ tag (normalize_sentence s) := by
  obtain ⟨p, hp, hstep⟩ := List.mem_filterMap.mp hq
  obtain ⟨ans, ds, hty, hans, halpha, hlen4, hfw, hds, hdslen, hsub, hmany, hperm⟩ :=
    mcqStep_props (hchoice p.1) (hsample p.1) (hshuffle p.1) hstep
  refine ⟨p.2, enumF_mem hp, ans, ds, hans, hperm, hdslen, hsub, hmany, ?_⟩
  intro d hd
  obtain ⟨⟨t, htag, _⟩, hne, hdalpha, hd4⟩ := otherNounList_mem (hsub.subset hd)
  exact ⟨hne, hdalpha, hd4, t, htag⟩

/-- The MCQ item produced on the C8 witness run. -/
def c8wQ : Question := (generate_mcq witTagNN defaultRandO [c8wSentence]).headD ⟨[], [], [], []⟩

theorem claim_C8_amended_witness :
    ∃ s ∈ [c8wSentence], ∃ ans ds,
      c8wQ.answer = capitalize_first ans ∧
      c8wQ.options.Perm ((ans :: ds).map capitalize_first) ∧
      ds.length = 3 ∧
      ds.Subperm (otherNounList (witTagNN (normalize_sentence s)) ans) ∧
      3 ≤ (otherNounList (witTagNN (normalize_sentence s)) ans).length ∧
      ∀ d ∈ ds, lowerStr d ≠ lowerStr ans ∧ isAlphaStr d = true ∧ 4 ≤ d.length ∧
        ∃ t, (d, t) ∈ witTagNN (normalize_sentence s) :=
  claim_C8_amended witTagNN defaultRandO
    (fun _ _ h => headD_mem h)
    (fun _ l h => ⟨by show (l.take 3).length = 3; rw [List.length_take]; omega,
      by show (l.take 3).Subperm l; exact (List.take_sublist 3 l).subperm⟩)
    (fun _ l => List.Perm.refl l)
    [c8wSentence] c8wQ (by decide)

/-- The tagger of the C7 scenario: the NLTK tokenization of
`"The mitochondria is the powerhouse of the cell."` (punctuation split off),
with every token tagged as a noun — the tagging most favourable to MCQ
synthesis, since distractors must be noun-tagged. -/
def c7Tag : Tagger := fun _ =>
  [(str "The", str "NN"), (str "mitochondria", str "NN"), (str "is", str "NN"),
   (str "the", str "NN"), (str "powerhouse", str "NN"), (str "of", str "NN"),
   (str "the", str "NN"), (str "cell", str "NN"), (str ".", str "NN")]

/-- The C7 example sentence. -/
def c7Sentence : Str := str "The mitochondria is the powerhouse of the cell."

/-- C7 counterexample: on the spec's example sentence, with the selector
choosing `mitochondria` (the first eligible candidate) and every token
noun-tagged, `generate_mcq` emits no item at all — the sentence offers only
two eligible distractors (`powerhouse`, `cell`), fewer than the required 3 —
so no MCQ item with the described question text is produced. -/
theorem claim_C7_counterexample :
    generate_mcq c7Tag defaultRandO [c7Sentence] = [] := by decide

/-- C7 amended: on the example sentence with selector choice `mitochondria`,
masking does yield `"The _____ is the powerhouse of the cell."` and the
capitalized answer is `"Mitochondria"`, but the item is skipped because only
the two distractors `powerhouse` and `cell` are available (3 required), so
`generate_mcq` emits nothing for this sentence. -/
theorem claim_C7_amended :
    mask_answer_in_sentence (normalize_sentence c7Sentence) (str "mitochondria") =
      some (str "The _____ is the powerhouse of the cell.") ∧
    capitalize_first (str "mitochondria") = str "Mitochondria" ∧
    otherNounList (c7Tag (normalize_sentence c7Sentence)) (str "mitochondria") =
      [str "powerhouse", str "cell"] ∧
    generate_mcq c7Tag defaultRandO [c7Sentence] = [] := by
  exact ⟨by decide, by decide, by decide, by decide⟩

/-- A concrete tagger that marks every whitespace-separated token as a
determiner (`DT`): no verbs and no nouns are available for negation. -/
def tagDT : Tagger := fun s => (splitWords s).map (fun w => (w, str "DT"))

/-- First C2 counterexample sentence (7 words, no negatable token). -/
def c2wA : Str := str "so we do it all over again"

/-- Second C2 counterexample sentence (7 words). -/
def c2wB : Str := str "it is done all over again today"

/-- C2 counterexample: two eligible sentences (`n = 2`, so `n // 2 = 1`),
the false-designated one has no verb-tagged and no noun-tagged token, its
negation fails and the item is dropped: zero `"False"` items are emitted,
not `n // 2 = 1`. -/
theorem claim_C2_counterexample :
    ([c2wA, c2wB].filter (fun s => decide (6 < wordCount s))).length = 2 ∧
    (2 : Nat) / 2 = 1 ∧
    (generate_true_false tagDT defaultRandO [c2wA, c2wB]).countP
      (fun q => decide (q.answer = str "False")) = 0 ∧
    (generate_true_false tagDT defaultRandO [c2wA, c2wB]).countP
      (fun q => decide (q.answer = str "True")) = 1 :=
  ⟨by decide, by decide, by decide, by decide⟩

theorem tfNounSwap_false_answer {tag : Tagger} {r : RandO} {i : Nat} {s : Str} {q : Question}
    (hq : tfNounSwap tag r i s = some q) : q.answer = str "False" := by
  simp only [tfNounSwap] at hq
  split at hq
  · exact absurd hq (by simp)
  · split at hq
    · exact absurd hq (by simp)
    · rw [← Option.some_inj.mp hq]

theorem tfStep_true_of_not_mem {tag : Tagger} {r : RandO} {fi : List Nat} {i : Nat} {s : Str}
    (h : fi.contains i = false) :
    tfStep tag r fi i s =
      some ⟨str "True/False", str "True or False: " ++ capitalize_first s, [], str "True"⟩ := by
  unfold tfStep
  rw [if_neg (by rw [h]; exact Bool.false_ne_true)]

theorem tfStep_false_answer {tag : Tagger} {r : RandO} {fi : List Nat} {i : Nat} {s : Str}
    {q : Question} (h : fi.contains i = true)
    (hq : tfStep tag r fi i s = some q) : q.answer = str "False" := by
  simp only [tfStep, h, if_true] at hq
  split at hq
  · rename_i v hv
    split at hq
    · split at hq
      · exact absurd hq (by simp)
      · rw [← Option.some_inj.mp hq]
    · exact tfNounSwap_false_answer hq
  · exact tfNounSwap_false_answer hq

theorem tf_countTrue (tag : Tagger) (r : RandO) (fi : List Nat) :
    ∀ (l : List Str) (k : Nat),
    ((enumF k l).filterMap (fun p => tfStep tag r fi p.1 p.2)).countP
        (fun q => decide (q.answer = str "True")) =
      (List.range' k l.length).countP (fun j => !fi.contains j) := by
  intro l
  induction l with
  | nil => intro k; rfl
  | cons s rest ih =>
    intro k
    rw [enumF_cons, List.length_cons, List.range'_succ, List.countP_cons]
    by_cases hk : fi.contains k = true
    · rw [if_neg (by rw [hk]; decide)]
      rcases hstep : tfStep tag r fi k s with _ | q
      · rw [List.filterMap_cons_none (by simpa using hstep), ih (k + 1)]
        omega
      · rw [List.filterMap_cons_some (by simpa using hstep), List.countP_cons, ih (k + 1)]
        have ha : q.answer = str "False" := tfStep_false_answer hk hstep
        have hd : ¬(decide (q.answer = str "True") = true) := by rw [ha]; decide
        rw [if_neg hd]
    · have hk' : fi.contains k = false := by simpa using hk
      rw [if_pos (by rw [hk']; rfl)]
      rw [List.filterMap_cons_some (by simpa using tfStep_true_of_not_mem (s := s) hk'),
        List.countP_cons, ih (k + 1)]
      have hproj : (⟨str "True/False", str "True or False: " ++ capitalize_first s, [],
          str "True"⟩ : Question).answer = str "True" := rfl
      rw [if_pos (by rw [hproj]; decide)]

theorem tf_countFalse_le (tag : Tagger) (r : RandO) (fi : List Nat) :
    ∀ (l : List Str) (k : Nat),
    ((enumF k l).filterMap (fun p => tfStep tag r fi p.1 p.2)).countP
        (fun q => decide (q.answer = str "False")) ≤
      (List.range' k l.length).countP (fun j => fi.contains j) := by
  intro l
  induction l with
  | nil => intro k; exact Nat.le_refl 0
  | cons s rest ih =>
    intro k
    rw [enumF_cons, List.length_cons, List.range'_succ, List.countP_cons]
    by_cases hk : fi.contains k = true
    · rw [if_pos hk]
      rcases hstep : tfStep tag r fi k s with _ | q
      · rw [List.filterMap_cons_none (by simpa using hstep)]
        exact Nat.le_trans (ih (k + 1)) (by omega)
      · rw [List.filterMap_cons_some (by simpa using hstep), List.countP_cons]
        have h2 := ih (k + 1)
        have h3 : (if decide (q.answer = str "False") = true then (1 : Nat) else 0) ≤ 1 := by
          split <;> omega
        omega
    · have hk' : fi.contains k = false := by simpa using hk
      rw [if_neg (by rw [hk']; decide)]
      rw [List.filterMap_cons_some (by simpa using tfStep_true_of_not_mem (s := s) hk'),
        List.countP_cons]
      have hproj : (⟨str "True/False", str "True or False: " ++ capitalize_first s, [],
          str "True"⟩ : Question).answer = str "True" := rfl
      rw [if_neg (by rw [hproj]; decide)]
      exact ih (k + 1)

theorem range'_countP_contains {fi : List Nat} {n : Nat} (hnd : fi.Nodup)
    (hlt : ∀ x ∈ fi, x < n) :
    (List.range' 0 n).countP (fun j => fi.contains j) = fi.length := by
  rw [List.countP_eq_length_filter]
  have hfnd : ((List.range' 0 n).filter (fun j => fi.contains j)).Nodup :=
    List.Nodup.sublist (List.filter_sublist _)
      (by rw [← List.range_eq_range']; exact List.nodup_range n)
  have hperm : ((List.range' 0 n).filter (fun j => fi.contains j)).Perm fi := by
    rw [List.perm_ext_iff_of_nodup hfnd hnd]
    intro a
    simp only [List.mem_filter, ← List.range_eq_range', List.mem_range]
    constructor
    · rintro ⟨_, hc⟩; exact contains_iff_memQ.mp hc
    · intro ha; exact ⟨hlt a ha, contains_iff_memQ.mpr ha⟩
  exact hperm.length_eq

theorem range'_countP_not_contains {fi : List Nat} {n : Nat} (hnd : fi.Nodup)
    (hlt : ∀ x ∈ fi, x < n) :
    (List.range' 0 n).countP (fun j => !fi.contains j) = n - fi.length := by
  have htot := List.length_eq_countP_add_countP (fun j => fi.contains j) (List.range' 0 n)
  have hlen : (List.range' 0 n).length = n := by
    rw [← List.range_eq_range']; exact List.length_range n
  have hcc := range'_countP_contains hnd hlt
  have heq : (List.range' 0 n).countP (fun a => decide ¬((fun j => fi.contains j) a = true)) =
      (List.range' 0 n).countP (fun j => !fi.contains j) := by
    apply List.countP_congr
    intro a _
    simp
  rw [heq] at htot
  omega

/-- C2 amended: for every sentence list, with `n` the number of eligible
sentences (more than 6 words), `generate_true_false` emits exactly `n - n//2`
items answered `"True"`, and at most `n // 2` items answered `"False"` — the
count falls short of `n // 2` exactly when a designated negation fails and
the item is dropped; in particular `n = 1` yields 0 `"False"` items. -/
theorem claim_C2_amended (tag : Tagger) (r : RandO) (sentences : List Str) (n : Nat)
    (hn : n = (sentences.filter (fun s => decide (6 < wordCount s))).length)
    (hnd : (r.tfFalseIdx n).Nodup)
    (hlt : ∀ x ∈ r.tfFalseIdx n, x < n)
    (hhalf : (r.tfFalseIdx n).length = n / 2) :
    (generate_true_false tag r sentences).countP
        (fun q => decide (q.answer = str "True")) = n - n / 2 ∧
    (generate_true_false tag r sentences).countP
        (fun q => decide (q.answer = str "False")) ≤ n / 2 := by
  have hn' : n = ((sentences.filter (fun s => decide (6 < wordCount s))).map
      normalize_sentence).length := by rw [List.length_map]; exact hn
  set valid := (sentences.filter (fun s => decide (6 < wordCount s))).map normalize_sentence
    with hv
  by_cases hne : valid.isEmpty
  · have h0 : n = 0 := by rw [hn', List.isEmpty_iff.mp hne]; rfl
    have hgen : generate_true_false tag r sentences = [] := by
      simp only [generate_true_false]
      rw [← hv, if_pos hne]
    rw [hgen, h0]
    exact ⟨rfl, Nat.le_refl 0⟩
  · have hgen : generate_true_false tag r sentences =
        (enumF 0 valid).filterMap
          (fun p => tfStep tag r (r.tfFalseIdx valid.length) p.1 p.2) := by
      simp only [generate_true_false]
      rw [← hv, if_neg hne]
    have hvn : valid.length = n := hn'.symm
    constructor
    · rw [hgen, tf_countTrue tag r _ _ 0, hvn, range'_countP_not_contains hnd hlt, hhalf]
    · rw [hgen]
      refine Nat.le_trans (tf_countFalse_le tag r _ _ 0) ?_
      rw [hvn, range'_countP_contains hnd hlt, hhalf]

theorem claim_C2_amended_witness :
    (generate_true_false witTagNN defaultRandO [c2wA, c2wB]).countP
        (fun q => decide (q.answer = str "True")) = 2 - 2 / 2 ∧
    (generate_true_false witTagNN defaultRandO [c2wA, c2wB]).countP
        (fun q => decide (q.answer = str "False")) ≤ 2 / 2 :=
  claim_C2_amended witTagNN defaultRandO [c2wA, c2wB] 2 (by decide)
    (by decide) (by decide) (by decide)

/-- The C9 counterexample sentence: exactly 6 words. -/
def c9wSentence : Str := str "Mitochondria produce chemical energy inside organisms"

/-- C9 counterexample: `generate_short_answers` emits an item from a sentence
of exactly 6 words — its filter drops only sentences of fewer than 6 words
(`word_count < 6`), not of at most 6. -/
theorem claim_C9_counterexample :
    wordCount c9wSentence = 6 ∧
    (generate_short_answers witTagNN defaultRandO [c9wSentence]).length = 1 :=
  ⟨by decide, by decide⟩

/-- C9 amended: sentences of at most 6 words are dropped by the true/false
flow, and sentences of at most 5 words (fewer than 6) are dropped by the
short-answer flow. -/
theorem claim_C9_amended (tag : Tagger) (r : RandO) (l1 l2 : List Str)
    (h1 : ∀ s ∈ l1, wordCount s ≤ 6) (h2 : ∀ s ∈ l2, wordCount s ≤ 5) :
    generate_true_false tag r l1 = [] ∧ generate_short_answers tag r l2 = [] := by
  constructor
  · have hf : l1.filter (fun s => decide (6 < wordCount s)) = [] := by
      rw [List.filter_eq_nil_iff]
      intro a ha
      simp only [decide_eq_true_eq, not_lt]
      exact h1 a ha
    simp only [generate_true_false, hf, List.map_nil]
    rfl
  · unfold generate_short_answers
    rw [List.filterMap_eq_nil_iff]
    intro p hp
    have hs := enumF_mem hp
    have hwc : wordCount (normalize_sentence p.2) ≤ 5 := by
      rw [wordCount_normalize]; exact h2 p.2 hs
    simp only [saStep]
    rw [if_pos (Or.inl (by omega))]

theorem claim_C9_amended_witness :
    generate_true_false witTagNN defaultRandO [str "one two"] = [] ∧
    generate_short_answers witTagNN defaultRandO [str "one two"] = [] :=
  claim_C9_amended witTagNN defaultRandO [str "one two"] [str "one two"]
    (by decide) (by decide)

/-- C4 counterexample: an input with a single sentence (fewer than 25
eligible sentences) gets `target_count = 5 > 1`, violating
`target_count ≤ total_sentence_count`. -/
theorem claim_C4_counterexample :
    target_count 1 = 5 ∧ (1 : Nat) < 25 ∧ ¬(target_count 1 ≤ 1) :=
  ⟨rfl, by decide, by decide⟩

/-- C4 amended: the ranking target equals `max(5, min(total // 5, 25))`, is
non-decreasing in the sentence count, and is bounded by the sentence count
whenever the input has at least 5 (and fewer than 25) sentences; below 5
sentences the floor of 5 exceeds the count. -/
theorem claim_C4_amended :
    (∀ n : Nat, target_count n = max 5 (min (n / 5) 25)) ∧
    (∀ n m : Nat, n ≤ m → target_count n ≤ target_count m) ∧
    (∀ n : Nat, 5 ≤ n → n < 25 → target_count n ≤ n) := by
  refine ⟨fun n => rfl, ?_, ?_⟩
  · intro n m h
    unfold target_count
    have hd : n / 5 ≤ m / 5 := Nat.div_le_div_right h
    exact max_le_max (Nat.le_refl 5) (min_le_min hd (Nat.le_refl 25))
  · intro n h5 h25
    unfold target_count
    have hd : n / 5 ≤ 4 := by omega
    have h1 : min (n / 5) 25 = n / 5 := Nat.min_eq_left (by omega)
    rw [h1]
    have h2 : max 5 (n / 5) = 5 := Nat.max_eq_left (by omega)
    rw [h2]
    exact h5

theorem claim_C4_amended_witness :
    target_count 10 ≤ target_count 12 ∧ target_count 10 ≤ 10 :=
  ⟨claim_C4_amended.2.1 10 12 (by decide), claim_C4_amended.2.2 10 (by decide) (by decide)⟩

set_option maxRecDepth 10000 in
/-- Sanity anchor: the RFC 1321 test vector `MD5("") = d41d8cd98f00b204e9800998ecf8427e`. -/
theorem md5Bytes_empty :
    md5Bytes [] = [0xd4, 0x1d, 0x8c, 0xd9, 0x8f, 0x00, 0xb2, 0x04,
      0xe9, 0x80, 0x09, 0x98, 0xec, 0xf8, 0x42, 0x7e] := by decide

set_option maxRecDepth 10000 in
/-- Sanity anchor: the RFC 1321 test vector `MD5("abc")`. -/
theorem md5Bytes_abc :
    md5Bytes (utf8Str (str "abc")) = [0x90, 0x01, 0x50, 0x98, 0x3c, 0xd2, 0x4f, 0xb0,
      0xd6, 0x96, 0x3f, 0x7d, 0x28, 0xe1, 0x7f, 0x72] := by decide

/-- C5: the derived random seed equals
`int(md5(first 10000 chars of cleaned text).hexdigest(), 16) mod 10^8`,
is below `10^8`, and depends only on the first 10000 characters of the
cleaned text — so two runs on identical cleaned text derive the same seed. -/
theorem claim_C5_seed (t u : Str) (h : t.take 10000 = u.take 10000) :
    seed_val t = md5Int (utf8Str (t.take 10000)) % 10 ^ 8 ∧
    seed_val t < 10 ^ 8 ∧
    seed_val t = seed_val u := by
  refine ⟨rfl, ?_, ?_⟩
  · exact Nat.mod_lt _ (by norm_num)
  · unfold seed_val
    rw [h]

theorem claim_C5_seed_witness :
    seed_val (List.replicate 10001 'a') =
      md5Int (utf8Str ((List.replicate 10001 'a' : Str).take 10000)) % 10 ^ 8 ∧
    seed_val (List.replicate 10001 'a') < 10 ^ 8 ∧
    seed_val (List.replicate 10001 'a') = seed_val (List.replicate 10002 'a') :=
  claim_C5_seed _ _ (by rw [List.take_replicate, List.take_replicate]; norm_num)

/-- C6: if the full first generation pass over the requested types yields
zero items, the pipeline retries exactly once running all four synthesizers
(MCQ, FillBlank, TrueFalse, ShortAnswer) regardless of what was requested,
and the empty result is surfaced as terminal only when that retry is also
empty. -/
theorem claim_C6_retry (tag : Tagger) (r1 r2 : RandO) (normalized_types : List Str)
    (use_sentences : List Str) (batch_size : Nat) :
    ((if batch_size < use_sentences.length then
        batch_generate_questions tag r1 use_sentences normalized_types batch_size
      else direct_generation tag r1 normalized_types use_sentences) = [] →
      generation_phase tag r1 r2 normalized_types use_sentences batch_size =
        generate_mcq tag r2 use_sentences ++ generate_fill tag r2 use_sentences ++
        generate_true_false tag r2 use_sentences ++
        generate_short_answers tag r2 use_sentences) ∧
    (generation_phase tag r1 r2 normalized_types use_sentences batch_size = [] →
      generate_mcq tag r2 use_sentences ++ generate_fill tag r2 use_sentences ++
      generate_true_false tag r2 use_sentences ++
      generate_short_answers tag r2 use_sentences = []) := by
  unfold generation_phase
  set questions :=
    (if batch_size < use_sentences.length then
      batch_generate_questions tag r1 use_sentences normalized_types batch_size
    else direct_generation tag r1 normalized_types use_sentences) with hqdef
  constructor
  · intro h
    rw [h]
    rfl
  · intro h
    by_cases he : questions.isEmpty
    · rw [if_pos he] at h
      exact h
    · rw [if_neg he] at h
      exact absurd (by rw [h]; rfl : questions.isEmpty = true) he

theorem claim_C6_retry_witness :
    generation_phase witTagNN defaultRandO defaultRandO [str "mcq"] [] 50 =
      generate_mcq witTagNN defaultRandO [] ++ generate_fill witTagNN defaultRandO [] ++
      generate_true_false witTagNN defaultRandO [] ++
      generate_short_answers witTagNN defaultRandO [] :=
  (claim_C6_retry witTagNN defaultRandO defaultRandO [str "mcq"] [] 50).1 (by decide)

theorem direct_generation_nil (tag : Tagger) (r : RandO) (types : List Str) :
    direct_generation tag r types [] = [] := by
  unfold direct_generation
  split <;> split <;> split <;> split <;> rfl

/-- C10: for every sentence list whose length is at most `batch_size`
(positive — `batch_size = 0` raises `ZeroDivisionError` in the source) and
every set of requested types, `batch_generate_questions` returns exactly the
same question list as the unbatched path running the requested synthesizers
over the full list in the order MCQ, FillBlank, TrueFalse, ShortAnswer,
given the same random stream. -/
theorem claim_C10_batch_equiv (tag : Tagger) (r : RandO) (sentences : List Str)
    (question_types : List Str) (batch_size : Nat) (hbs : 0 < batch_size)
    (hlen : sentences.length ≤ batch_size) :
    batch_generate_questions tag r sentences question_types batch_size =
      direct_generation tag r question_types sentences := by
  unfold batch_generate_questions
  rcases Nat.eq_zero_or_pos sentences.length with h0 | hpos
  · have hb : (sentences.length + batch_size - 1) / batch_size = 0 := by
      apply Nat.div_eq_of_lt; omega
    have hsent : sentences = [] := List.length_eq_zero.mp h0
    rw [hb, hsent]
    simp only [List.range_zero, List.map_nil, List.flatten_nil]
    rw [direct_generation_nil]
  · have hb : (sentences.length + batch_size - 1) / batch_size = 1 :=
      Nat.div_eq_of_lt_le (by omega) (by omega)
    rw [hb]
    have h1 : List.range 1 = [0] := rfl
    simp only [h1, List.map_cons, List.map_nil, List.flatten_cons,
      List.flatten_nil, Nat.zero_mul, List.drop_zero, List.take_of_length_le hlen,
      List.append_nil]

theorem claim_C10_batch_equiv_witness :
    batch_generate_questions witTagNN defaultRandO [c1wSentence] [str "mcq"] 50 =
      direct_generation witTagNN defaultRandO [str "mcq"] [c1wSentence] :=
  claim_C10_batch_equiv witTagNN defaultRandO [c1wSentence] [str "mcq"] 50
    (by decide) (by decide)

/-! ### Order-theoretic facts for the tfidf comparison -/

theorem fracLt_iff_val {a b : Frac} : a.num * b.den < b.num * a.den ↔ fracVal a < fracVal b := by
  unfold fracVal
  rw [div_lt_div_iff₀ (by exact_mod_cast a.den_pos) (by exact_mod_cast b.den_pos)]
  constructor
  · intro h; exact_mod_cast h
  · intro h; exact_mod_cast h

theorem fracEq_iff_val {a b : Frac} : a.num * b.den = b.num * a.den ↔ fracVal a = fracVal b := by
  unfold fracVal
  rw [div_eq_div_iff (by exact_mod_cast a.den_pos.ne' : ¬((a.den : ℚ) = 0))
    (by exact_mod_cast b.den_pos.ne' : ¬((b.den : ℚ) = 0))]
  constructor
  · intro h; exact_mod_cast h
  · intro h; exact_mod_cast h

theorem tupGe_iff_val {x y : Frac × Nat} : tupGe x y ↔
    (fracVal y.1 < fracVal x.1 ∨ (fracVal x.1 = fracVal y.1 ∧ y.2 ≤ x.2)) := by
  unfold tupGe
  rw [fracLt_iff_val, fracEq_iff_val]

instance : IsTrans (Frac × Nat) tupGe where
  trans a b c h1 h2 := by
    rw [tupGe_iff_val] at *
    rcases h1 with h1 | ⟨he1, hi1⟩ <;> rcases h2 with h2 | ⟨he2, hi2⟩
    · exact Or.inl (lt_trans h2 h1)
    · exact Or.inl (he2 ▸ h1)
    · exact Or.inl (he1 ▸ h2)
    · exact Or.inr ⟨he1.trans he2, hi2.trans hi1⟩

instance : IsTotal (Frac × Nat) tupGe where
  total a b := by
    rw [tupGe_iff_val, tupGe_iff_val]
    rcases lt_trichotomy (fracVal a.1) (fracVal b.1) with h | h | h
    · exact Or.inr (Or.inl h)
    · rcases Nat.le_total b.2 a.2 with hi | hi
      · exact Or.inl (Or.inr ⟨h, hi⟩)
      · exact Or.inr (Or.inr ⟨h.symm, hi⟩)
    · exact Or.inl (Or.inl h)

theorem pairwise_lt_of_le_nodup {l : List Nat} (h1 : List.Pairwise (· ≤ ·) l)
    (h2 : l.Nodup) : List.Pairwise (· < ·) l := by
  induction l with
  | nil => exact List.Pairwise.nil
  | cons a rest ih =>
    rw [List.pairwise_cons] at h1 ⊢
    rw [List.nodup_cons] at h2
    refine ⟨fun b hb => lt_of_le_of_ne (h1.1 b hb) ?_, ih h1.2 h2.2⟩
    intro he
    exact h2.1 (he ▸ hb)

theorem enumF_length (k : Nat) (l : List α) : (enumF k l).length = l.length := by
  induction l generalizing k with
  | nil => rfl
  | cons a rest ih => rw [enumF_cons, List.length_cons, List.length_cons, ih]

theorem enumF_map_fst (k : Nat) (l : List α) :
    (enumF k l).map Prod.fst = List.range' k l.length := by
  induction l generalizing k with
  | nil => rfl
  | cons a rest ih =>
    rw [enumF_cons, List.length_cons, List.range'_succ, List.map_cons, ih]

theorem mem_enumF {l : List α} : ∀ {k i : Nat} {a : α},
    (i, a) ∈ enumF k l ↔ ∃ j, j < l.length ∧ i = k + j ∧ l[j]? = some a := by
  induction l with
  | nil => intro k i a; simp [enumF]
  | cons x rest ih =>
    intro k i a
    rw [enumF_cons, List.mem_cons]
    constructor
    · rintro (h | h)
      · obtain ⟨hi, ha⟩ := Prod.mk.injEq i a k x ▸ h
        exact ⟨0, by simp, by omega, by simp [ha]⟩
      · obtain ⟨j, hj, hi, hg⟩ := ih.mp h
        exact ⟨j + 1, by simpa using hj, by omega, by simpa using hg⟩
    · rintro ⟨j, hj, hi, hg⟩
      cases j with
      | zero =>
        left
        rw [List.getElem?_cons_zero, Option.some_inj] at hg
        rw [Prod.mk.injEq]
        exact ⟨by omega, hg.symm⟩
      | succ j' =>
        right
        rw [List.getElem?_cons_succ] at hg
        exact ih.mpr ⟨j', by simpa using hj, by omega, hg⟩

/-- C3 amended: in the tfidf path, the returned list is the sublist of
eligible sentences at a set `I` of indices listed in ascending original
document order; `I` has `min target (number of eligible sentences)` elements,
and every unselected index is dominated by every selected one in the
`(score, index)` lexicographic order — descending by score with ties broken
by *descending* original index (Python's `sort(reverse=True)` on the
`(score, idx)` tuples), not ascending as the spec claims. -/
theorem claim_C3_amended (wtok : Str → List Str) (sw : Str → Bool) (idfF : Nat → Frac)
    (target_cnt : Nat) (sents : List Str) :
    ∃ I : List Nat,
      List.Pairwise (· < ·) I ∧
      rank_sentences_tfidf wtok sw idfF target_cnt sents =
        I.map (fun i => (eligibleSentences sents).getD i []) ∧
      I.length = min target_cnt (eligibleSentences sents).length ∧
      (∀ i ∈ I, i < (eligibleSentences sents).length) ∧
      (∀ i ∈ I, ∀ j < (eligibleSentences sents).length, j ∉ I →
        fracVal (tfidfScore wtok sw idfF sents j) < fracVal (tfidfScore wtok sw idfF sents i) ∨
        (fracVal (tfidfScore wtok sw idfF sents j) = fracVal (tfidfScore wtok sw idfF sents i) ∧
          j ≤ i)) := by
  by_cases hne : (eligibleSentences sents).isEmpty
  · refine ⟨[], List.Pairwise.nil, ?_, ?_, by simp, by simp⟩
    · simp only [rank_sentences_tfidf, if_pos hne, List.map_nil]
    · rw [List.isEmpty_iff.mp hne]
      simp
  · set E := eligibleSentences sents with hE
    set TL := tfidfTokenLists wtok sw sents with hTL
    set dfc := tfidfDf wtok sw sents with hdfc
    set L := (enumF 0 TL).map (fun p => (sentScore idfF dfc p.2, p.1)) with hL
    set S := List.insertionSort tupGe L with hS
    set tix := (S.take target_cnt).map Prod.snd with htix
    set I0 := List.insertionSort (· ≤ ·) tix with hI0
    have hrank : rank_sentences_tfidf wtok sw idfF target_cnt sents =
        I0.map (fun i => E.getD i []) := by
      simp only [rank_sentences_tfidf]
      rw [← hE, if_neg hne, ← hTL, ← hdfc, ← hL, ← hS, ← htix, ← hI0]
    have hTLlen : TL.length = E.length := by
      rw [hTL, hE]
      simp [tfidfTokenLists]
    have hLlen : L.length = TL.length := by
      rw [hL, List.length_map, enumF_length]
    have hperm : S.Perm L := List.perm_insertionSort tupGe L
    have hsorted : List.Sorted tupGe S := List.sorted_insertionSort tupGe L
    have hshape : ∀ q ∈ L, q.2 < E.length ∧ q.1 = tfidfScore wtok sw idfF sents q.2 := by
      intro q hq
      rw [hL] at hq
      obtain ⟨p, hp, hfp⟩ := List.mem_map.mp hq
      obtain ⟨i, a⟩ := p
      obtain ⟨j, hj, hij, hg⟩ := mem_enumF.mp hp
      have hq2 : q.2 = j := by rw [← hfp]; simpa using hij
      have hq1 : q.1 = sentScore idfF dfc a := by rw [← hfp]
      have hgd : TL.getD j [] = a := by
        rw [List.getD_eq_getElem?_getD, hg]
        rfl
      refine ⟨by rw [hq2, ← hTLlen]; exact hj, ?_⟩
      rw [hq1, hq2]
      show sentScore idfF dfc a = tfidfScore wtok sw idfF sents j
      unfold tfidfScore
      rw [← hdfc, ← hTL, hgd]
    have hmemL : ∀ j, j < E.length → (tfidfScore wtok sw idfF sents j, j) ∈ L := by
      intro j hj
      have hj' : j < TL.length := by rw [hTLlen]; exact hj
      rw [hL]
      apply List.mem_map.mpr
      refine ⟨(j, TL.getD j []), ?_, ?_⟩
      · apply mem_enumF.mpr
        refine ⟨j, hj', by omega, ?_⟩
        rw [List.getD_eq_getElem?_getD, List.getElem?_eq_getElem hj']
        rfl
      · show (sentScore idfF dfc (TL.getD j []), j) = _
        unfold tfidfScore
        rw [← hdfc, ← hTL]
    have hmapsnd : L.map Prod.snd = List.range' 0 TL.length := by
      rw [hL, List.map_map]
      have hco : (Prod.snd ∘ fun p : Nat × List Str => (sentScore idfF dfc p.2, p.1)) =
          Prod.fst := rfl
      rw [hco, enumF_map_fst]
    have hndS : (S.map Prod.snd).Nodup := by
      have hp2 : (List.range' 0 TL.length).Perm (S.map Prod.snd) := by
        rw [← hmapsnd]
        exact (hperm.map Prod.snd).symm
      exact List.Nodup.perm (by rw [← List.range_eq_range']; exact List.nodup_range _) hp2
    have htixnd : tix.Nodup := by
      rw [htix]
      exact List.Nodup.sublist ((List.take_sublist target_cnt S).map Prod.snd) hndS
    have hI0perm : I0.Perm tix := List.perm_insertionSort _ tix
    have hI0nd : I0.Nodup := List.Nodup.perm htixnd hI0perm.symm
    have hI0sorted : List.Pairwise (· ≤ ·) I0 := List.sorted_insertionSort _ tix
    refine ⟨I0, pairwise_lt_of_le_nodup hI0sorted hI0nd, hrank, ?_, ?_, ?_⟩
    · rw [hI0perm.length_eq, htix, List.length_map, List.length_take, hperm.length_eq,
        hLlen, hTLlen]
    · intro i hi
      have hi2 : i ∈ tix := (hI0perm.mem_iff).mp hi
      rw [htix] at hi2
      obtain ⟨q, hq, hq2⟩ := List.mem_map.mp hi2
      have hqL : q ∈ L := hperm.mem_iff.mp ((List.take_sublist target_cnt S).subset hq)
      have := (hshape q hqL).1
      rw [hq2] at this
      exact this
    · intro i hi j hj hjI
      have hi2 : i ∈ tix := (hI0perm.mem_iff).mp hi
      rw [htix] at hi2
      obtain ⟨qi, hqi, hqi2⟩ := List.mem_map.mp hi2
      have hqiL : qi ∈ L := hperm.mem_iff.mp ((List.take_sublist target_cnt S).subset hqi)
      have hqishape := hshape qi hqiL
      have hqj : (tfidfScore wtok sw idfF sents j, j) ∈ S :=
        hperm.mem_iff.mpr (hmemL j hj)
      rw [← List.take_append_drop target_cnt S, List.mem_append] at hqj
      rcases hqj with hqj | hqj
      · exfalso
        apply hjI
        apply hI0perm.mem_iff.mpr
        rw [htix]
        exact List.mem_map.mpr ⟨_, hqj, rfl⟩
      · have hsp := hsorted
        rw [← List.take_append_drop target_cnt S] at hsp
        obtain ⟨-, -, hcross⟩ := List.pairwise_append.mp hsp
        have hge := hcross qi hqi _ hqj
        rw [tupGe_iff_val] at hge
        rw [hqishape.2, hqi2] at hge
        have hge' : fracVal (tfidfScore wtok sw idfF sents j) <
            fracVal (tfidfScore wtok sw idfF sents i) ∨
            (fracVal (tfidfScore wtok sw idfF sents i) =
              fracVal (tfidfScore wtok sw idfF sents j) ∧ j ≤ i) := by simpa using hge
        rcases hge' with h | ⟨heq, hle⟩
        · exact Or.inl h
        · exact Or.inr ⟨heq.symm, hle⟩

/-- The constant IDF `1` used in the C3 counterexample (any value works,
since all six sentences have identical token statistics). -/
def fracOne : Frac := ⟨1, 1, Nat.one_pos⟩

/-- Six 6-word sentences that are permutations of the same six words: every
sentence gets the same tf-idf score, so the sort order is decided purely by
the tie-break. -/
def c3Sents : List Str :=
  [ str "alpha beta gamma delta epsil zeta",
    str "beta alpha gamma delta epsil zeta",
    str "gamma alpha beta delta epsil zeta",
    str "delta alpha beta gamma epsil zeta",
    str "epsil alpha beta gamma delta zeta",
    str "zeta alpha beta gamma delta epsil" ]

set_option maxRecDepth 10000 in
/-- C3 counterexample: on six equal-score sentences with target 5, the code
(`sort(reverse=True)` on `(score, idx)` tuples) breaks ties by *descending*
index and selects indices 1–5, while the spec's described rule (stable sort,
ties by original document order) would select indices 0–4: the outputs
differ. -/
theorem claim_C3_counterexample :
    rank_sentences_tfidf splitWords (fun _ => false) (fun _ => fracOne) 5 c3Sents =
      [str "beta alpha gamma delta epsil zeta",
       str "gamma alpha beta delta epsil zeta",
       str "delta alpha beta gamma epsil zeta",
       str "epsil alpha beta gamma delta zeta",
       str "zeta alpha beta gamma delta epsil"] ∧
    rank_tfidf_spec_model splitWords (fun _ => false) (fun _ => fracOne) 5 c3Sents =
      [str "alpha beta gamma delta epsil zeta",
       str "beta alpha gamma delta epsil zeta",
       str "gamma alpha beta delta epsil zeta",
       str "delta alpha beta gamma epsil zeta",
       str "epsil alpha beta gamma delta zeta"] ∧
    rank_sentences_tfidf splitWords (fun _ => false) (fun _ => fracOne) 5 c3Sents ≠
      rank_tfidf_spec_model splitWords (fun _ => false) (fun _ => fracOne) 5 c3Sents :=
  ⟨by decide, by decide, by decide⟩
